import Mathlib

/-!
Verification of the data-platform lineage / root-cause / cache service.

Shallow embedding of the backend's pure logic:
* `backend/routers/bq_lineage.py` — lineage graph construction
  (`get_table_lineage`, `get_upstream_dependencies`,
  `get_downstream_dependencies`), the table-metadata freshness
  classification, and the cache-aside pattern around each endpoint.
* `backend/routers/root_cause_analysis.py` — per-ancestor metadata
  (`get_table_metadata`), the four health checks, the BFS over upstream
  edges, ranking, and recommendation synthesis
  (`analyze_upstream_dependencies`).
* `backend/redis_cache.py` — `RedisCache.get/set/delete_pattern` and
  `generate_cache_key`.
* `backend/main.py` — the `clear_cache_pattern` endpoint.

External collaborators (the BigQuery client, Redis, the wall clock) are
modelled as explicit inputs: warehouse query results are passed in as
`Except`-wrapped row lists (`Except.error` standing for a raised
exception), timestamps are represented by the age in hours (a rational,
i.e. `(now - modified).total_seconds() / 3600`), and the Redis store is
an association list.
-/

namespace DataPlatform

/-- Python truthiness of a string: `if s:` is false exactly on `""`
(`None` is modelled as `""` as well, which the code treats identically
in the `if row.source_table:` guards). -/
def pyTruthy (s : String) : Bool := !(s == "")

/-- `f"{project_id}.{dataset_id}.{table_id}"` — the identity key of a
table used throughout both routers. -/
def tableKey (p d t : String) : String := p ++ "." ++ d ++ "." ++ t

/-! ## Freshness classification

Two distinct classifiers exist in the source.  The root-cause analyzer's
`get_table_metadata` (root_cause_analysis.py lines 16-24) uses
thresholds 24 h and 72 h; the table-metadata endpoint
(bq_lineage.py lines 64-75) uses thresholds 24 h and 168 h and has an
extra `"unknown"` branch when the table has no modification timestamp. -/

/-- Freshness as computed by `get_table_metadata` in
`root_cause_analysis.py`: `< 24h → "fresh"`, `< 72h → "recent"`,
otherwise `"stale"`.  `hoursSinceModified` stands for
`(datetime.now(tz) - modified_time).total_seconds() / 3600`. -/
def rcaFreshness (hoursSinceModified : ℚ) : String :=
  if hoursSinceModified < 24 then "fresh"
  else if hoursSinceModified < 72 then "recent"
  else "stale"

/-- Freshness as computed by the `/bigquery/table-metadata` endpoint in
`bq_lineage.py`: `< 24h → "fresh"`, `< 168h → "recent"`, otherwise
`"stale"`; `"unknown"` when the table carries no modification
timestamp. -/
def metadataFreshness (lastModifiedHoursAgo : Option ℚ) : String :=
  match lastModifiedHoursAgo with
  | some h =>
    if h < 24 then "fresh"
    else if h < 168 then "recent"
    else "stale"
  | none => "unknown"

/-! ## Python dict semantics

`get_table_lineage` deduplicates with
`{node["id"]: node for node in nodes}` /
`{f"{edge['source']}-{edge['target']}": edge for edge in edges}` and
returns `.values()`.  A Python dict comprehension processes items left to
right; a repeated key keeps its first-insertion position and is
overwritten with the later value.  `insertPy` / `pyDict` model exactly
that, and `pyDictValues` models `list(d.values())`. -/

/-- Insert into an association list with Python-dict semantics: an
existing key keeps its position and gets the new value, a new key is
appended at the end. -/
def insertPy {α : Type} (k : String) (v : α) :
    List (String × α) → List (String × α)
  | [] => [(k, v)]
  | (k', v') :: rest =>
    if k' = k then (k', v) :: rest else (k', v') :: insertPy k v rest

/-- The Python dict built from `l` with key function `key` (a dict
comprehension `{key(a): a for a in l}`). -/
def pyDict {α : Type} (key : α → String) (l : List α) : List (String × α) :=
  l.foldl (fun d a => insertPy (key a) a d) []

/-- `list({key(a): a for a in l}.values())`. -/
def pyDictValues {α : Type} (key : α → String) (l : List α) : List α :=
  (pyDict key l).map Prod.snd

/-- First-match association-list lookup (`d.get(k)` on a Python dict
represented as its item list). -/
def lookupA {α : Type} : List (String × α) → String → Option α
  | [], _ => none
  | (k', v) :: rest, k => if k' = k then some v else lookupA rest k

/-! ## Lineage data model (bq_lineage.py) -/

/-- A node dict as built by `get_table_lineage` /
`get_upstream_dependencies` / `get_downstream_dependencies`. -/
structure LineageNode where
  id : String
  label : String
  type : String
  projectId : String
  datasetId : String
  tableName : String
  level : Nat
deriving Repr, DecidableEq

/-- An edge dict: `{"source": ..., "target": ..., "type": "dependency"}`. -/
structure LineageEdge where
  source : String
  target : String
  type : String
deriving Repr, DecidableEq

/-- One row of a dependency-discovery query result: a
`(project_id, dataset_id, table_id)` triple. -/
structure TableTriple where
  project : String
  dataset : String
  table : String
deriving Repr, DecidableEq

/-- The payload `get_table_lineage` returns (and caches). -/
structure LineageResult where
  nodes : List LineageNode
  edges : List LineageEdge
  rootNode : String
  cached : Bool
deriving Repr, DecidableEq

/-- The level-1 node built from one discovered row (both directions
build the same dict shape, with `level: 1`). -/
def nodeOfTriple (r : TableTriple) : LineageNode :=
  { id := tableKey r.project r.dataset r.table
    label := r.table
    type := "table"
    projectId := r.project
    datasetId := r.dataset
    tableName := r.table
    level := 1 }

/-- `get_upstream_dependencies` (bq_lineage.py lines 394-447): on a
successful query, each row with a truthy `source_table` yields one
level-1 node and one edge `source → root`; a raised exception
(`Except.error`) is caught and contributes nothing.  `maxDepth` is
accepted and ignored, as in the source. -/
def getUpstreamDependencies (p d t : String) (maxDepth : Nat)
    (queryResult : Except String (List TableTriple)) :
    List LineageNode × List LineageEdge :=
  match queryResult with
  | .error _ => ([], [])
  | .ok rows =>
    let kept := rows.filter (fun r => pyTruthy r.table)
    (kept.map nodeOfTriple,
     kept.map (fun r =>
       { source := tableKey r.project r.dataset r.table
         target := tableKey p d t
         type := "dependency" }))

/-- `get_downstream_dependencies` (bq_lineage.py lines 450-505): each
row with a truthy `target_table` yields one level-1 node and one edge
`root → target`; a raised exception contributes nothing. -/
def getDownstreamDependencies (p d t : String) (maxDepth : Nat)
    (queryResult : Except String (List TableTriple)) :
    List LineageNode × List LineageEdge :=
  match queryResult with
  | .error _ => ([], [])
  | .ok rows =>
    let kept := rows.filter (fun r => pyTruthy r.table)
    (kept.map nodeOfTriple,
     kept.map (fun r =>
       { source := tableKey p d t
         target := tableKey r.project r.dataset r.table
         type := "dependency" }))

/-- The dedup key of an edge: `f"{edge['source']}-{edge['target']}"`. -/
def edgeKey (e : LineageEdge) : String := e.source ++ "-" ++ e.target

/-- The root node `get_table_lineage` constructs first. -/
def rootNodeOf (p d t : String) : LineageNode :=
  { id := tableKey p d t
    label := t
    type := "table"
    projectId := p
    datasetId := d
    tableName := t
    level := 0 }

/-- The graph-construction body of `get_table_lineage`
(bq_lineage.py lines 337-380): root node first, then the upstream
contribution when `direction in ["upstream", "both"]`, then the
downstream contribution when `direction in ["downstream", "both"]`,
then dict-based dedup of nodes by `id` and of edges by
`f"{source}-{target}"`.  The two sub-query outcomes are inputs
(`Except.error` = the sub-query raised and was caught inside the
helper). -/
def getTableLineage (p d t direction : String) (depth : Nat)
    (upResult downResult : Except String (List TableTriple)) :
    LineageResult :=
  let rootNode := rootNodeOf p d t
  let up := getUpstreamDependencies p d t depth upResult
  let down := getDownstreamDependencies p d t depth downResult
  let nodes := [rootNode]
    ++ (if direction = "upstream" ∨ direction = "both" then up.1 else [])
    ++ (if direction = "downstream" ∨ direction = "both" then down.1 else [])
  let edges :=
    (if direction = "upstream" ∨ direction = "both" then up.2 else [])
    ++ (if direction = "downstream" ∨ direction = "both" then down.2 else [])
  { nodes := pyDictValues (fun n => n.id) nodes
    edges := pyDictValues edgeKey edges
    rootNode := rootNode.id
    cached := false }

/-- The endpoint body around the graph construction: the `try/except`
in `get_table_lineage` surfaces an uncaught exception as HTTP 500, but
the sub-query exceptions are already consumed inside the helpers, so
the graph construction itself always succeeds (`Except.ok`).  The
error type is the HTTP status code. -/
def getTableLineageResponse (p d t direction : String) (depth : Nat)
    (upResult downResult : Except String (List TableTriple)) :
    Except Nat LineageResult :=
  .ok (getTableLineage p d t direction depth upResult downResult)

/-! ## Root-cause analyzer (root_cause_analysis.py)

The BigQuery client is modelled as a function from a table identity to
an optional `TableRef` (the `bq_client.get_table` result; `none` = the
call raised, which `get_table_metadata` turns into `None`).  The
modification timestamp is carried as its age in hours. -/

/-- What the analyzer reads off `bq_client.get_table`: modification
age, row count, byte count and table type (`tableType` carries
`table_ref.table_type.lower()`, the lowercased collaborator value). -/
structure TableRef where
  modifiedHoursAgo : ℚ
  numRows : Nat
  numBytes : Nat
  tableType : String
deriving Repr, DecidableEq

/-- The dict returned by `get_table_metadata` in
`root_cause_analysis.py` (lines 10-39), timestamps kept as ages in
hours.  `none` models the `except` branch returning `None`. -/
structure RcaMetadata where
  projectId : String
  datasetId : String
  tableId : String
  numRows : Nat
  numBytes : Nat
  modifiedHoursAgo : ℚ
  freshness : String
  type : String
deriving Repr, DecidableEq

/-- `get_table_metadata` of the root-cause analyzer: freshness is
`rcaFreshness` (24 h / 72 h thresholds). -/
def rcaGetTableMetadata (p d t : String) (ref : Option TableRef) :
    Option RcaMetadata :=
  match ref with
  | none => none
  | some r =>
    some { projectId := p
           datasetId := d
           tableId := t
           numRows := r.numRows
           numBytes := r.numBytes
           modifiedHoursAgo := r.modifiedHoursAgo
           freshness := rcaFreshness r.modifiedHoursAgo
           type := r.tableType }

/-- A row of `get_recent_job_failures`. -/
structure JobFailure where
  jobId : String
  creationTime : String
  errorReason : String
  errorMessage : String
deriving Repr, DecidableEq

/-- Python `int()` applied to the nonnegative float
`hours_since_modified`: truncation, which on nonnegative values is the
floor. -/
def pyInt (q : ℚ) : Int := ⌊q⌋

/-- Check 1 of `analyze_upstream_dependencies` (lines 134-140): data
freshness.  `"stale"` forces `"critical"`; `"recent"` adds an issue and
escalates `"info"` to `"warning"` only. -/
def check1 (m : RcaMetadata) (st : List String × String) :
    List String × String :=
  if m.freshness = "stale" then
    (st.1 ++ ["Data is stale (not updated in >72 hours)"], "critical")
  else if m.freshness = "recent" then
    (st.1 ++ ["Data may be outdated (>24 hours old)"],
     if st.2 = "info" then "warning" else st.2)
  else st

/-- Check 2 (lines 142-148): modification within the last 24 hours
flags a potential breaking change and escalates `"info"` to
`"critical"` (leaving `"warning"` and `"critical"` unchanged). -/
def check2 (m : RcaMetadata) (st : List String × String) :
    List String × String :=
  if m.modifiedHoursAgo < 24 then
    (st.1 ++ ["Modified " ++ toString (pyInt m.modifiedHoursAgo)
        ++ " hours ago (potential breaking change)"],
     if st.2 = "info" then "critical" else st.2)
  else st

/-- Check 3 (lines 150-153): an empty table forces `"critical"`. -/
def check3 (m : RcaMetadata) (st : List String × String) :
    List String × String :=
  if m.numRows = 0 then
    (st.1 ++ ["Table is empty (0 rows)"], "critical")
  else st

/-- Check 4 (lines 155-159): any recent job failure forces
`"critical"`. -/
def check4 (failures : List JobFailure) (st : List String × String) :
    List String × String :=
  if !failures.isEmpty then
    (st.1 ++ [toString failures.length ++ " job failure(s) in last 24 hours"],
     "critical")
  else st

/-- The per-ancestor evaluation (lines 131-159): the four checks in
order, starting from no issues and severity `"info"`. -/
def evalAncestor (m : RcaMetadata) (failures : List JobFailure) :
    List String × String :=
  check4 failures (check3 m (check2 m (check1 m ([], "info"))))

/-- `severity_order = {"critical": 0, "warning": 1, "info": 2}` used as
the sort key (line 181); only those three values ever reach it. -/
def severityOrder (s : String) : Nat :=
  if s = "critical" then 0 else if s = "warning" then 1 else 2

/-- The `"data"` sub-dict of a suspicious node. -/
structure SuspiciousNodeData where
  label : String
  datasetId : String
  type : String
deriving Repr, DecidableEq

/-- The `"node"` sub-dict of a suspicious node. -/
structure SuspiciousNodeRef where
  id : String
  data : SuspiciousNodeData
deriving Repr, DecidableEq

/-- One entry of `suspicious_nodes` (lines 163-178), `lastModified`
kept as an age in hours. -/
structure SuspiciousNode where
  node : SuspiciousNodeRef
  issues : List String
  severity : String
  lastModifiedHoursAgo : ℚ
  freshness : String
  numRows : Nat
  jobFailures : List JobFailure
deriving Repr, DecidableEq

/-- The analyzer's result (lines 193-198); the wall-clock `timestamp`
field is omitted from the model. -/
structure AnalysisResult where
  suspiciousNodes : List SuspiciousNode
  analyzedNodes : Nat
  recommendation : String
deriving Repr, DecidableEq

/-- The warehouse environment the analyzer consults per ancestor:
`get_table` outcome and recent-failure list, per table identity. -/
structure RcaEnv where
  tableRef : String → String → String → Option TableRef
  failures : String → String → String → List JobFailure

/-- Splitting a character list on a separator character; mirrors
Python's `str.split` with an explicit separator (`"" → [""]`,
`"a..b" → ["a", "", "b"]`). -/
def splitOnChar (c : Char) : List Char → List (List Char)
  | [] => [[]]
  | x :: xs =>
    let r := splitOnChar c xs
    if x = c then [] :: r
    else
      match r with
      | s :: rest => (x :: s) :: rest
      | [] => [[x]]

/-- `source_id.split(".")`. -/
def pySplitDot (s : String) : List String :=
  (splitOnChar '.' s.data).map (fun l => String.mk l)

/-- The body of the inner edge loop after a source is marked visited
(lines 114-178): look the node up in the id-keyed dict, split the id on
`"."` and require three parts, fetch metadata, run the four checks, and
produce a suspicious entry only when at least one issue was found.
`none` = the `continue` paths / no issues. -/
def analyzeSource (env : RcaEnv) (nodesById : List (String × LineageNode))
    (sourceId : String) : Option SuspiciousNode :=
  match lookupA nodesById sourceId with
  | none => none
  | some _ =>
    match pySplitDot sourceId with
    | [srcProject, srcDataset, srcTable] =>
      match rcaGetTableMetadata srcProject srcDataset srcTable
          (env.tableRef srcProject srcDataset srcTable) with
      | none => none
      | some metadata =>
        let failures := env.failures srcProject srcDataset srcTable
        let result := evalAncestor metadata failures
        if !result.1.isEmpty then
          some { node := { id := sourceId
                           data := { label := srcTable
                                     datasetId := srcDataset
                                     type := metadata.type } }
                 issues := result.1
                 severity := result.2
                 lastModifiedHoursAgo := metadata.modifiedHoursAgo
                 freshness := metadata.freshness
                 numRows := metadata.numRows
                 jobFailures := failures }
        else none
    | _ => none

/-- The BFS worklist state: `visited` ids (insertion order), the
queue, and the accumulated suspicious nodes. -/
structure BfsState where
  visited : List String
  queue : List String
  acc : List SuspiciousNode

/-- Processing the incoming edges of one dequeued id (lines 106-178):
each edge whose source is unvisited marks it visited, enqueues it, and
appends its analysis (when one is produced). -/
def processIncoming (env : RcaEnv) (nodesById : List (String × LineageNode))
    (incoming : List LineageEdge) (st : BfsState) : BfsState :=
  incoming.foldl
    (fun st e =>
      if e.source ∈ st.visited then st
      else
        { visited := st.visited ++ [e.source]
          queue := st.queue ++ [e.source]
          acc := st.acc ++ (analyzeSource env nodesById e.source).toList })
    st

/-- The BFS loop (lines 102-178), fuelled.  Python's `while queue` loop
terminates because every enqueued id is freshly marked visited, so at
most `1 + edges.length` ids are ever dequeued; the caller passes fuel
`1 + edges.length`, which therefore never runs out. -/
def bfsLoop (env : RcaEnv) (edges : List LineageEdge)
    (nodesById : List (String × LineageNode)) :
    Nat → BfsState → List String × List SuspiciousNode
  | 0, st => (st.visited, st.acc)
  | fuel + 1, st =>
    match st.queue with
    | [] => (st.visited, st.acc)
    | current :: rest =>
      let incoming := edges.filter (fun e => e.target = current)
      let st' := processIncoming env nodesById incoming
        { visited := st.visited, queue := rest, acc := st.acc }
      bfsLoop env edges nodesById fuel st'

/-- Stable insertion into a rank-sorted list: the element goes in
front of the first entry of equal or greater rank, so equal-rank
entries keep their original relative order. -/
def stableInsert {α : Type} (rank : α → Nat) (a : α) : List α → List α
  | [] => [a]
  | b :: bs =>
    if rank b < rank a then b :: stableInsert rank a bs else a :: b :: bs

/-- Stable sort by a numeric rank; models Python's stable
`list.sort(key=...)` (line 182 sorts by `severity_order[...]`). -/
def stableSortByRank {α : Type} (rank : α → Nat) : List α → List α
  | [] => []
  | x :: xs => stableInsert rank x (stableSortByRank rank xs)

/-- `analyze_upstream_dependencies` (lines 82-198): id-keyed node dict,
BFS from the target over incoming edges, stable sort by severity rank,
and recommendation synthesis. -/
def analyzeUpstreamDependencies (p d t : String)
    (lineage : LineageResult) (env : RcaEnv) : AnalysisResult :=
  let targetId := tableKey p d t
  let nodesById := pyDict (fun n => n.id) lineage.nodes
  let edges := lineage.edges
  let (visited, found) := bfsLoop env edges nodesById
    (1 + edges.length)
    { visited := [targetId], queue := [targetId], acc := [] }
  let sorted := stableSortByRank (fun s => severityOrder s.severity) found
  let recommendation :=
    match sorted with
    | [] =>
      "No obvious upstream issues detected. The problem may be in the transformation logic or external factors."
    | top :: _ =>
      if top.severity = "critical" then
        "Start by investigating '" ++ top.node.data.label
          ++ "'. It has critical issues that are likely propagating downstream."
      else
        "Check the flagged upstream tables. Issues may be cascading from multiple sources."
  { suspiciousNodes := sorted
    analyzedNodes := visited.length
    recommendation := recommendation }

/-! ## Redis cache layer (redis_cache.py, main.py)

The Redis store is an association list from key to value; `connected`
models `is_connected()`, and the `*Fails` flags model the `except`
branches around individual Redis commands. -/

/-- `RedisCache.get` (lines 48-68): `None` when disconnected, else the
stored value (deserialization errors also yield `None`, absorbed into a
missing entry). -/
def redisGet {α : Type} (connected : Bool) (store : List (String × α))
    (key : String) : Option α :=
  if connected then lookupA store key else none

/-- `RedisCache.set` (lines 70-91): `false` without storing when
disconnected or when the command raises (`setFails`), else stores
(overwriting) and returns `true`.  The TTL only schedules expiry inside
Redis and is not part of the store model. -/
def redisSet {α : Type} (connected setFails : Bool)
    (store : List (String × α)) (key : String) (value : α) :
    Bool × List (String × α) :=
  if !connected then (false, store)
  else if setFails then (false, store)
  else (true, insertPy key value store)

/-- Redis `KEYS` glob matching, restricted to literal characters and
`*` (the service only ever passes `prefix:*` patterns, which use
nothing else). -/
def globMatch : List Char → List Char → Bool
  | [], [] => true
  | [], _ :: _ => false
  | '*' :: ps, [] => globMatch ps []
  | '*' :: ps, c :: ks => globMatch ps (c :: ks) || globMatch ('*' :: ps) ks
  | p :: ps, c :: ks => p == c && globMatch ps ks
  | _ :: _, [] => false
termination_by ps ks => (ks.length, ps.length)

/-- Whether a stored key matches a pattern. -/
def keyMatches (pattern key : String) : Bool :=
  globMatch pattern.data key.data

/-- `RedisCache.delete_pattern` (lines 113-133): `0` when disconnected
or when a command raises (`delFails`); otherwise deletes every matching
key and returns how many (`client.delete(*keys)` on the keys `KEYS`
listed).  Returns the count and the store after deletion. -/
def deletePattern {α : Type} (connected delFails : Bool)
    (store : List (String × α)) (pattern : String) :
    Nat × List (String × α) :=
  if !connected then (0, store)
  else if delFails then (0, store)
  else
    ((store.filter (fun e => keyMatches pattern e.1)).length,
     store.filter (fun e => !keyMatches pattern e.1))

/-- The response body of `clear_cache_pattern` (main.py lines 112-117),
minus the constant `"status": "success"` field's siblings. -/
structure ClearPatternResponse where
  status : String
  pattern : String
  keysDeleted : Nat
deriving Repr, DecidableEq

/-- `DELETE /api/cache/clear/{pattern}` (main.py lines 101-117):
503 when the cache is disconnected, 400 when the pattern is outside the
allow-list `["lineage:*", "assets:*", "schema:*"]`, else the deletion
count.  The `Except` error is the HTTP status code. -/
def clearCachePattern {α : Type} (connected delFails : Bool)
    (store : List (String × α)) (pattern : String) :
    Except Nat (ClearPatternResponse × List (String × α)) :=
  if !connected then .error 503
  else if pattern ∉ (["lineage:*", "assets:*", "schema:*"] : List String) then
    .error 400
  else
    let r := deletePattern connected delFails store pattern
    .ok ({ status := "success", pattern := pattern, keysDeleted := r.1 }, r.2)

/-- The cache-aside shape shared by every cacheable read endpoint
(e.g. `get_table_lineage` lines 327-386): on a connected-cache hit,
return the cached payload with its cached-flag set; otherwise compute
the payload and attempt to store it, ignoring the store's outcome.
Returns the payload and the store afterwards. -/
def cacheAside {α : Type} (connected setFails : Bool)
    (store : List (String × α)) (key : String) (compute : α)
    (markCached : α → α) : α × List (String × α) :=
  match redisGet connected store key with
  | some hit => (markCached hit, store)
  | none => (compute, (redisSet connected setFails store key compute).2)

/-- `generate_cache_key` (redis_cache.py lines 188-208), with the md5
step abstracted as `hash16` (an external library call): join the
stringified arguments with `":"`, and when the joined string exceeds
100 characters replace it by its 16-character content hash; prefix with
`"bq"` either way. -/
def generateCacheKey (hash16 : String → String) (args : List String) :
    String :=
  let keyString := String.intercalate ":" args
  if keyString.length > 100 then "bq" ++ ":" ++ hash16 keyString
  else "bq" ++ ":" ++ keyString

/-- The `/bigquery/lineage/...` endpoint with its cache orchestration
(bq_lineage.py lines 305-391): cache-aside around `getTableLineage`,
with the cached copy replayed with `cached = True`. -/
def getTableLineageCached (hash16 : String → String)
    (connected setFails : Bool) (store : List (String × LineageResult))
    (p d t direction : String) (depth : Nat)
    (upResult downResult : Except String (List TableTriple)) :
    LineageResult × List (String × LineageResult) :=
  let key := generateCacheKey hash16
    ["lineage", p, d, t, direction, toString depth]
  cacheAside connected setFails store key
    (getTableLineage p d t direction depth upResult downResult)
    (fun r => { r with cached := true })

/-! ## The job-history discovery queries

The SQL text built by `get_upstream_dependencies`,
`get_downstream_dependencies` and `get_edge_query`, as explicit
concatenations mirroring the Python f-strings (only the fragments the
claims are about; the surrounding constant text is kept verbatim). -/

/-- The f-string of `get_upstream_dependencies` (lines 406-419). -/
def upstreamJobsQuery (p d t : String) : String :=
  "\n        SELECT DISTINCT\n            referenced_tables.project_id as source_project,\n            referenced_tables.dataset_id as source_dataset,\n            referenced_tables.table_id as source_table\n        FROM `region-us`.INFORMATION_SCHEMA.JOBS_BY_PROJECT,\n        UNNEST(referenced_tables) as referenced_tables\n        WHERE destination_table.project_id = '"
  ++ p ++ "'\n        AND destination_table.dataset_id = '"
  ++ d ++ "'\n        AND destination_table.table_id = '"
  ++ t ++ "'\n        AND creation_time > TIMESTAMP_SUB(CURRENT_TIMESTAMP(), INTERVAL 30 DAY)\n        AND statement_type IN ('INSERT', 'CREATE_TABLE_AS_SELECT', 'MERGE')\n        LIMIT 100\n        "

/-- The f-string of `get_downstream_dependencies` (lines 463-477). -/
def downstreamJobsQuery (p d t : String) : String :=
  "\n        SELECT DISTINCT\n            destination_table.project_id as target_project,\n            destination_table.dataset_id as target_dataset,\n            destination_table.table_id as target_table\n        FROM `region-us`.INFORMATION_SCHEMA.JOBS_BY_PROJECT,\n        UNNEST(referenced_tables) as referenced_tables\n        WHERE referenced_tables.project_id = '"
  ++ p ++ "'\n        AND referenced_tables.dataset_id = '"
  ++ d ++ "'\n        AND referenced_tables.table_id = '"
  ++ t ++ "'\n        AND destination_table.table_id IS NOT NULL\n        AND creation_time > TIMESTAMP_SUB(CURRENT_TIMESTAMP(), INTERVAL 30 DAY)\n        AND statement_type IN ('INSERT', 'CREATE_TABLE_AS_SELECT', 'MERGE')\n        LIMIT 100\n        "

/-- The statement-type filter clause of `get_edge_query` (line 563),
the only job-history query that includes `UPDATE`. -/
def edgeQueryStatementFilter : String :=
  "AND statement_type IN ('INSERT', 'CREATE_TABLE_AS_SELECT', 'MERGE', 'UPDATE')"

/-- Substring containment, on the underlying character lists. -/
def containsSub (needle haystack : String) : Prop :=
  needle.data <:+: haystack.data

/-- Executable substring check used to decide `containsSub`. -/
def hasSubB (needle : List Char) : List Char → Bool
  | [] => needle.isEmpty
  | c :: rest => needle.isPrefixOf (c :: rest) || hasSubB needle rest

theorem hasSubB_correct (needle : List Char) :
    ∀ haystack : List Char, hasSubB needle haystack ↔ needle <:+: haystack := by
  intro haystack
  induction haystack with
  | nil =>
    cases needle with
    | nil => simp [hasSubB]
    | cons c cs =>
      simp only [hasSubB, List.isEmpty]
      exact ⟨fun h => by simp at h,
        fun h => absurd (List.eq_nil_of_infix_nil h) (by simp)⟩
  | cons c rest ih =>
    simp only [hasSubB, Bool.or_eq_true, List.isPrefixOf_iff_prefix, ih,
      List.infix_cons_iff]

instance (needle haystack : String) : Decidable (containsSub needle haystack) :=
  decidable_of_iff (hasSubB needle.data haystack.data)
    (by rw [hasSubB_correct]; rfl)

/-! ## Association-list lemmas for the dict-based dedup -/

/-- The last element of `l` whose key is `k` — the value a Python dict
comprehension ends up holding at key `k`. -/
def lastWith {α : Type} (key : α → String) (l : List α) (k : String) :
    Option α :=
  (l.filter (fun a => key a = k)).getLast?

theorem lookupA_insertPy {α : Type} (k k' : String) (v : α)
    (d : List (String × α)) :
    lookupA (insertPy k v d) k' = if k = k' then some v else lookupA d k' := by
  induction d with
  | nil => simp [insertPy, lookupA]
  | cons hd tl ih =>
    obtain ⟨k0, v0⟩ := hd
    by_cases h0 : k0 = k
    · subst h0
      simp only [insertPy, if_pos rfl, lookupA]
      by_cases h1 : k0 = k' <;> simp [h1]
    · simp only [insertPy, if_neg h0, lookupA]
      by_cases h1 : k0 = k'
      · subst h1
        have : ¬ k = k0 := fun h => h0 h.symm
        simp [this]
      · simp [h1, ih]

theorem mem_insertPy {α : Type} {p : String × α} {k : String} {v : α}
    {d : List (String × α)} (h : p ∈ insertPy k v d) :
    p = (k, v) ∨ p ∈ d := by
  induction d with
  | nil => simpa [insertPy] using h
  | cons hd tl ih =>
    obtain ⟨k0, v0⟩ := hd
    by_cases h0 : k0 = k
    · subst h0
      simp only [insertPy, if_pos rfl] at h
      rcases List.mem_cons.1 h with h | h
      · exact Or.inl (by simpa using h)
      · exact Or.inr (List.mem_cons_of_mem _ h)
    · simp only [insertPy, if_neg h0] at h
      rcases List.mem_cons.1 h with h | h
      · exact Or.inr (by simp [h])
      · rcases ih h with h | h
        · exact Or.inl h
        · exact Or.inr (List.mem_cons_of_mem _ h)

theorem keys_insertPy {α : Type} (k : String) (v : α)
    (d : List (String × α)) :
    (insertPy k v d).map Prod.fst
      = if k ∈ d.map Prod.fst then d.map Prod.fst
        else d.map Prod.fst ++ [k] := by
  induction d with
  | nil => simp [insertPy]
  | cons hd tl ih =>
    obtain ⟨k0, v0⟩ := hd
    by_cases h0 : k0 = k
    · subst h0
      simp [insertPy]
    · have hne : ¬ k = k0 := fun h => h0 h.symm
      by_cases h1 : k ∈ tl.map Prod.fst <;>
        simp [insertPy, h0, ih, hne, h1]

theorem mem_keys_insertPy {α : Type} {k' k : String} {v : α}
    {d : List (String × α)} :
    k' ∈ (insertPy k v d).map Prod.fst ↔ k' = k ∨ k' ∈ d.map Prod.fst := by
  rw [keys_insertPy]
  split_ifs with h
  · exact ⟨Or.inr, fun x => x.elim (fun e => e ▸ h) id⟩
  · simp [List.mem_append, or_comm]

theorem nodupKeys_insertPy {α : Type} {k : String} {v : α}
    {d : List (String × α)} (h : (d.map Prod.fst).Nodup) :
    ((insertPy k v d).map Prod.fst).Nodup := by
  rw [keys_insertPy]
  split_ifs with h1
  · exact h
  · simp [List.nodup_append, h, h1]

theorem nodupKeys_pyFold {α : Type} (key : α → String) (l : List α)
    (d : List (String × α)) (h : (d.map Prod.fst).Nodup) :
    (((l.foldl (fun d a => insertPy (key a) a d) d)).map Prod.fst).Nodup := by
  induction l generalizing d with
  | nil => simpa using h
  | cons a t ih => exact ih _ (nodupKeys_insertPy h)

theorem nodupKeys_pyDict {α : Type} (key : α → String) (l : List α) :
    ((pyDict key l).map Prod.fst).Nodup :=
  nodupKeys_pyFold key l [] (by simp)

theorem mem_pyFold_src {α : Type} (key : α → String) (l : List α)
    (d : List (String × α)) {p : String × α}
    (h : p ∈ l.foldl (fun d a => insertPy (key a) a d) d) :
    p ∈ d ∨ p.2 ∈ l := by
  induction l generalizing d with
  | nil => exact Or.inl (by simpa using h)
  | cons a t ih =>
    rcases ih _ (by simpa using h) with h1 | h1
    · rcases mem_insertPy h1 with h2 | h2
      · exact Or.inr (by simp [h2])
      · exact Or.inl h2
    · exact Or.inr (List.mem_cons_of_mem _ h1)

theorem mem_of_mem_pyDictValues {α : Type} {key : α → String} {l : List α}
    {v : α} (h : v ∈ pyDictValues key l) : v ∈ l := by
  rcases List.mem_map.1 h with ⟨p, hp, hv⟩
  rcases mem_pyFold_src key l [] hp with h1 | h1
  · simp at h1
  · simpa [hv] using h1

theorem mem_of_lookupA {α : Type} {d : List (String × α)} {k : String}
    {v : α} (h : lookupA d k = some v) : (k, v) ∈ d := by
  induction d with
  | nil => simp [lookupA] at h
  | cons hd tl ih =>
    obtain ⟨k0, v0⟩ := hd
    by_cases h0 : k0 = k
    · subst h0
      simp [lookupA] at h
      subst h
      exact List.mem_cons_self _ _
    · simp only [lookupA, if_neg h0] at h
      exact List.mem_cons_of_mem _ (ih h)

theorem lookupA_of_mem_nodup {α : Type} {d : List (String × α)}
    {k : String} {v : α} (hnd : (d.map Prod.fst).Nodup)
    (h : (k, v) ∈ d) : lookupA d k = some v := by
  induction d with
  | nil => simp at h
  | cons hd tl ih =>
    obtain ⟨k0, v0⟩ := hd
    simp only [List.map_cons, List.nodup_cons] at hnd
    rcases List.mem_cons.1 h with h1 | h1
    · obtain ⟨rfl, rfl⟩ := Prod.mk.injEq .. ▸ h1
      simp [lookupA]
    · have hk : k0 ≠ k := by
        rintro rfl
        exact hnd.1 (by simpa using List.mem_map_of_mem Prod.fst h1)
      simp [lookupA, hk, ih hnd.2 h1]

theorem pair_mem_iff_lookupA {α : Type} {d : List (String × α)}
    (hnd : (d.map Prod.fst).Nodup) (k : String) (v : α) :
    (k, v) ∈ d ↔ lookupA d k = some v :=
  ⟨lookupA_of_mem_nodup hnd, mem_of_lookupA⟩

theorem getLast?_cons_isSome {α : Type} (b : α) (bs : List α) :
    ∃ x, (b :: bs).getLast? = some x := by
  induction bs generalizing b with
  | nil => exact ⟨b, rfl⟩
  | cons c cs ih =>
    rcases ih c with ⟨x, hx⟩
    exact ⟨x, by rw [List.getLast?_cons_cons]; exact hx⟩

theorem lastWith_cons {α : Type} (key : α → String) (a : α) (t : List α)
    (k : String) :
    lastWith key (a :: t) k
      = match lastWith key t k with
        | some x => some x
        | none => if key a = k then some a else none := by
  unfold lastWith
  rcases hft : List.filter (fun x => decide (key x = k)) t with _ | ⟨b, bs⟩
  · by_cases h : key a = k <;> simp [List.filter_cons, h, hft]
  · obtain ⟨x, hx⟩ := getLast?_cons_isSome b bs
    by_cases h : key a = k <;>
      simp [List.filter_cons, h, hft, List.getLast?_cons_cons, hx]

theorem lookupA_pyFold {α : Type} (key : α → String) (l : List α)
    (d : List (String × α)) (k : String) :
    lookupA (l.foldl (fun d a => insertPy (key a) a d) d) k
      = match lastWith key l k with
        | some x => some x
        | none => lookupA d k := by
  induction l generalizing d with
  | nil => simp [lastWith]
  | cons a t ih =>
    rw [List.foldl_cons, ih, lastWith_cons]
    cases hlt : lastWith key t k with
    | none => by_cases h : key a = k <;> simp [lookupA_insertPy, h]
    | some x => simp

theorem lookupA_pyDict {α : Type} (key : α → String) (l : List α)
    (k : String) :
    lookupA (pyDict key l) k
      = match lastWith key l k with
        | some x => some x
        | none => none := by
  simpa [lookupA] using lookupA_pyFold key l [] k

/-! ## Order-independence of the dict-based dedup -/

theorem getLast?_congr_of_perm {α : Type} {l l' : List α}
    (h : l.Perm l') (hall : ∀ a ∈ l, ∀ b ∈ l, a = b) :
    l.getLast? = l'.getLast? := by
  cases l with
  | nil =>
    have : l' = [] := h.symm.eq_nil
    simp [this]
  | cons a t =>
    cases l' with
    | nil => exact absurd h.eq_nil (by simp)
    | cons b t' =>
      obtain ⟨x, hx⟩ := getLast?_cons_isSome a t
      obtain ⟨y, hy⟩ := getLast?_cons_isSome b t'
      have hxm : x ∈ a :: t := List.mem_of_mem_getLast? (by simp [hx])
      have hym : y ∈ a :: t := h.symm.subset
        (List.mem_of_mem_getLast? (by simp [hy]))
      rw [hx, hy, hall x hxm y hym]

theorem lastWith_congr_of_perm {α : Type} (key : α → String) (k : String)
    {l l' : List α} (h : l.Perm l')
    (hdet : ∀ a ∈ l, ∀ b ∈ l, key a = key b → a = b) :
    lastWith key l k = lastWith key l' k := by
  unfold lastWith
  refine getLast?_congr_of_perm (h.filter _) ?_
  intro a ha b hb
  have ha' := List.of_mem_filter ha
  have hb' := List.of_mem_filter hb
  exact hdet a (List.mem_of_mem_filter ha) b (List.mem_of_mem_filter hb)
    (by simp only [decide_eq_true_eq] at ha' hb'; rw [ha', hb'])

theorem lastWith_append {α : Type} (key : α → String) (l1 l2 : List α)
    (k : String) :
    lastWith key (l1 ++ l2) k
      = match lastWith key l2 k with
        | some x => some x
        | none => lastWith key l1 k := by
  unfold lastWith
  rw [List.filter_append]
  rcases hft : List.filter (fun x => decide (key x = k)) l2 with _ | ⟨b, bs⟩
  · simp
  · obtain ⟨x, hx⟩ := getLast?_cons_isSome b bs
    rw [List.getLast?_append_of_ne_nil _ (by simp), hx]

/-- Two association lists with `Nodup` key lists and the same lookup
function are permutations of each other. -/
theorem assoc_perm_of_lookupA_eq {α : Type} {d d' : List (String × α)}
    (hnd : (d.map Prod.fst).Nodup) (hnd' : (d'.map Prod.fst).Nodup)
    (h : ∀ k, lookupA d k = lookupA d' k) : d.Perm d' := by
  refine (List.perm_ext_iff_of_nodup (hnd.of_map _) (hnd'.of_map _)).2 ?_
  rintro ⟨k, v⟩
  rw [pair_mem_iff_lookupA hnd, pair_mem_iff_lookupA hnd', h]

/-- The values of a Python dict, as an unordered collection, only
depend on the underlying last-occurrence-per-key map: permuting the
input within segments whose keys determine their elements permutes the
value list. -/
theorem pyDict_perm_of_lastWith_eq {α : Type} (key : α → String)
    {l l' : List α} (h : ∀ k, lastWith key l k = lastWith key l' k) :
    (pyDict key l).Perm (pyDict key l') := by
  refine assoc_perm_of_lookupA_eq (nodupKeys_pyDict key l)
    (nodupKeys_pyDict key l') ?_
  intro k
  rw [lookupA_pyDict, lookupA_pyDict, h]

theorem pyDictValues_perm {α : Type} (key : α → String) {l l' : List α}
    (h : ∀ k, lastWith key l k = lastWith key l' k) :
    (pyDictValues key l).Perm (pyDictValues key l') :=
  (pyDict_perm_of_lastWith_eq key h).map Prod.snd

/-! ## Injectivity of the identity keys -/

/-- A string with no `'.'` character — every legal BigQuery project,
dataset and table identifier. -/
def noDot (s : String) : Prop := '.' ∉ s.data

instance (s : String) : Decidable (noDot s) :=
  inferInstanceAs (Decidable ('.' ∉ s.data))

theorem split_on_sep {c : Char} :
    ∀ {a a' b b' : List Char}, c ∉ a → c ∉ a' →
      a ++ c :: b = a' ++ c :: b' → a = a' ∧ b = b' := by
  intro a
  induction a with
  | nil =>
    intro a' b b' _ ha' h
    cases a' with
    | nil => simpa using h
    | cons y ys =>
      simp only [List.nil_append, List.cons_append, List.cons.injEq] at h
      obtain ⟨rfl, -⟩ := h
      exact absurd (List.mem_cons_self _ _) ha'
  | cons x xs ih =>
    intro a' b b' ha ha' h
    cases a' with
    | nil =>
      simp only [List.cons_append, List.nil_append, List.cons.injEq] at h
      obtain ⟨rfl, -⟩ := h
      exact absurd (List.mem_cons_self _ _) ha
    | cons y ys =>
      simp only [List.cons_append, List.cons.injEq] at h
      obtain ⟨rfl, h2⟩ := h
      have := ih (fun hm => ha (List.mem_cons_of_mem _ hm))
        (fun hm => ha' (List.mem_cons_of_mem _ hm)) h2
      exact ⟨by rw [this.1], this.2⟩

theorem tableKey_data (p d t : String) :
    (tableKey p d t).data
      = p.data ++ '.' :: (d.data ++ '.' :: t.data) := by
  simp [tableKey, String.data_append]

theorem tableKey_inj {p1 d1 t1 p2 d2 t2 : String}
    (hp1 : noDot p1) (hd1 : noDot d1) (hp2 : noDot p2) (hd2 : noDot d2)
    (h : tableKey p1 d1 t1 = tableKey p2 d2 t2) :
    p1 = p2 ∧ d1 = d2 ∧ t1 = t2 := by
  have hdata : (tableKey p1 d1 t1).data = (tableKey p2 d2 t2).data := by
    rw [h]
  rw [tableKey_data, tableKey_data] at hdata
  obtain ⟨h1, h2⟩ := split_on_sep hp1 hp2 hdata
  obtain ⟨h3, h4⟩ := split_on_sep hd1 hd2 h2
  refine ⟨?_, ?_, ?_⟩
  · cases p1; cases p2; simp_all
  · cases d1; cases d2; simp_all
  · cases t1; cases t2; simp_all

theorem string_append_cancel_right {a b c : String}
    (h : a ++ c = b ++ c) : a = b := by
  have : a.data ++ c.data = b.data ++ c.data := by
    rw [← String.data_append, ← String.data_append, h]
  have hd : a.data = b.data := List.append_cancel_right this
  cases a; cases b; simp_all

theorem string_append_cancel_left {a b c : String}
    (h : c ++ a = c ++ b) : a = b := by
  have : c.data ++ a.data = c.data ++ b.data := by
    rw [← String.data_append, ← String.data_append, h]
  have hd : a.data = b.data := List.append_cancel_left this
  cases a; cases b; simp_all

/-! ## Substring facts about the discovery queries -/

theorem containsSub_append_left {x : String} (s : String) {t : String}
    (h : containsSub x t) : containsSub x (s ++ t) := by
  unfold containsSub at h ⊢
  rw [String.data_append]
  exact h.trans (List.suffix_append s.data t.data).isInfix

/-! ## Claim theorems -/

/-- C1 counterexample: at 100 hours since modification — inside the
claimed 24 h–168 h "recent" band — the root-cause analyzer's
classifier returns `"stale"`, not `"recent"` (its threshold is 72 h,
root_cause_analysis.py line 21), diverging from the table-metadata
endpoint's classifier, which indeed returns `"recent"`. -/
theorem rca_freshness_not_recent_at_100h :
    rcaFreshness 100 = "stale" ∧ rcaFreshness 100 ≠ "recent" ∧
    metadataFreshness (some 100) = "recent" := by
  refine ⟨by decide, by decide, by decide⟩

/-- C1 (amended): the table-metadata endpoint classifies ages under
24 h as `"fresh"`, from 24 h up to 168 h as `"recent"`, and otherwise
`"stale"` (`"unknown"` with no timestamp); the root-cause analyzer's
per-ancestor classifier uses 72 h instead of 168 h as its second
threshold, so the two agree below 72 h and from 168 h on, and differ on
[72 h, 168 h). -/
theorem freshness_classification (h : ℚ) :
    (h < 24 → rcaFreshness h = "fresh" ∧ metadataFreshness (some h) = "fresh") ∧
    (24 ≤ h → h < 72 →
      rcaFreshness h = "recent" ∧ metadataFreshness (some h) = "recent") ∧
    (72 ≤ h → h < 168 →
      rcaFreshness h = "stale" ∧ metadataFreshness (some h) = "recent") ∧
    (168 ≤ h → rcaFreshness h = "stale" ∧ metadataFreshness (some h) = "stale") ∧
    metadataFreshness none = "unknown" := by
  refine ⟨fun h1 => ?_, fun h1 h2 => ?_, fun h1 h2 => ?_, fun h1 => ?_, rfl⟩
  · simp [rcaFreshness, metadataFreshness, h1]
  · have h3 : ¬ h < 24 := not_lt.2 h1
    have h4 : h < 168 := by linarith
    simp [rcaFreshness, metadataFreshness, h3, h2, h4]
  · have h3 : ¬ h < 24 := by linarith
    have h4 : ¬ h < 72 := not_lt.2 h1
    simp [rcaFreshness, metadataFreshness, h3, h4, h2]
  · have h3 : ¬ h < 24 := by linarith
    have h4 : ¬ h < 72 := by linarith
    have h5 : ¬ h < 168 := not_lt.2 h1
    simp [rcaFreshness, metadataFreshness, h3, h4, h5]

/-- C1 witness: the amended classification evaluated at 30 hours. -/
theorem freshness_classification_witness :
    rcaFreshness 30 = "recent" ∧ metadataFreshness (some 30) = "recent" :=
  (freshness_classification 30).2.1 (by decide) (by decide)

set_option maxRecDepth 4000

/-- C6 counterexample: the downstream discovery query for a concrete
table does not mention `UPDATE` anywhere — its statement-type filter is
the same three-element list as the upstream query's
(bq_lineage.py line 475). -/
theorem downstream_query_lacks_update :
    ¬ containsSub "UPDATE" (downstreamJobsQuery "proj" "ds" "orders") := by
  decide

/-- C6 (amended): both discovery queries restrict to a 30-day lookback,
a 100-row cap, and the statement types
`INSERT, CREATE_TABLE_AS_SELECT, MERGE`; `UPDATE` additionally appears
only in the edge-query endpoint's statement-type filter, not in
downstream discovery. -/
theorem discovery_query_filters (p d t : String) :
    containsSub "INTERVAL 30 DAY" (upstreamJobsQuery p d t) ∧
    containsSub "LIMIT 100" (upstreamJobsQuery p d t) ∧
    containsSub "statement_type IN ('INSERT', 'CREATE_TABLE_AS_SELECT', 'MERGE')"
      (upstreamJobsQuery p d t) ∧
    containsSub "INTERVAL 30 DAY" (downstreamJobsQuery p d t) ∧
    containsSub "LIMIT 100" (downstreamJobsQuery p d t) ∧
    containsSub "statement_type IN ('INSERT', 'CREATE_TABLE_AS_SELECT', 'MERGE')"
      (downstreamJobsQuery p d t) ∧
    containsSub "'UPDATE'" edgeQueryStatementFilter := by
  unfold upstreamJobsQuery downstreamJobsQuery
  exact ⟨containsSub_append_left _ (by decide),
    containsSub_append_left _ (by decide),
    containsSub_append_left _ (by decide),
    containsSub_append_left _ (by decide),
    containsSub_append_left _ (by decide),
    containsSub_append_left _ (by decide),
    by decide⟩

/-- C7: a raised (and caught) dependency sub-query contributes zero
nodes and zero edges — the lineage response is the same as for an empty
result — and the endpoint still answers successfully even when both
sub-queries raise. -/
theorem lineage_subquery_failure_tolerated (p d t direction : String)
    (depth : Nat) (e e' : String)
    (upResult downResult : Except String (List TableTriple)) :
    getUpstreamDependencies p d t depth (.error e) = ([], []) ∧
    getDownstreamDependencies p d t depth (.error e) = ([], []) ∧
    getTableLineageResponse p d t direction depth (.error e) downResult
      = getTableLineageResponse p d t direction depth (.ok []) downResult ∧
    getTableLineageResponse p d t direction depth upResult (.error e')
      = getTableLineageResponse p d t direction depth upResult (.ok []) ∧
    getTableLineageResponse p d t direction depth (.error e) (.error e')
      = .ok (getTableLineage p d t direction depth (.ok []) (.ok [])) := by
  exact ⟨rfl, rfl, rfl, rfl, rfl⟩

theorem length_filter_add_length_filter_not {α : Type} (l : List α)
    (pr : α → Bool) :
    (l.filter pr).length + (l.filter (fun a => !pr a)).length = l.length := by
  induction l with
  | nil => rfl
  | cons a t ih => by_cases h : pr a <;> simp [List.filter, h] <;> omega

/-- C8: the cache-aside orchestration is transparent.  When the cache
is disconnected, or connected but missing the derived key (in
particular on the first call, before anything is stored), the lineage
endpoint returns exactly the computed payload — identical content, with
the `cached` flag `false` in every such case — and a failing cache
store (`setFails`) never changes the returned payload. -/
theorem cache_transparent_lineage (hash16 : String → String)
    (setFails : Bool) (store : List (String × LineageResult))
    (p d t direction : String) (depth : Nat)
    (upResult downResult : Except String (List TableTriple))
    (hmiss : lookupA store
      (generateCacheKey hash16 ["lineage", p, d, t, direction, toString depth])
        = none) :
    (getTableLineageCached hash16 false setFails store
        p d t direction depth upResult downResult).1
      = getTableLineage p d t direction depth upResult downResult ∧
    (getTableLineageCached hash16 true setFails store
        p d t direction depth upResult downResult).1
      = getTableLineage p d t direction depth upResult downResult ∧
    (getTableLineageCached hash16 true true store
        p d t direction depth upResult downResult).1
      = (getTableLineageCached hash16 true false store
          p d t direction depth upResult downResult).1 := by
  unfold getTableLineageCached cacheAside redisGet
  simp [hmiss]

/-- C8 witness: the cache-transparency theorem at a concrete first
call (empty store, constant hash). -/
theorem cache_transparent_lineage_witness :
    (getTableLineageCached (fun _ => "h") false false [] "proj" "ds" "orders"
        "upstream" 3 (.ok []) (.ok [])).1
      = getTableLineage "proj" "ds" "orders" "upstream" 3 (.ok []) (.ok []) :=
  (cache_transparent_lineage (fun _ => "h") false [] "proj" "ds" "orders"
    "upstream" 3 (.ok []) (.ok []) rfl).1

/-- C9: the pattern-scoped invalidation endpoint (with the cache
available) rejects every pattern outside the allow-list with HTTP 400,
and accepts every allow-listed pattern, answering with the number of
deleted keys — the number of entries removed from the store, `0` when
no stored key matches the pattern. -/
theorem clear_cache_pattern_allowlist {α : Type}
    (store : List (String × α)) (pattern : String) (delFails : Bool) :
    (pattern ∉ (["lineage:*", "assets:*", "schema:*"] : List String) →
      clearCachePattern true delFails store pattern = .error 400) ∧
    (pattern ∈ (["lineage:*", "assets:*", "schema:*"] : List String) →
      ∃ resp store',
        clearCachePattern true delFails store pattern = .ok (resp, store') ∧
        resp.status = "success" ∧ resp.pattern = pattern ∧
        resp.keysDeleted + store'.length = store.length ∧
        ((∀ e ∈ store, ¬ keyMatches pattern e.1) → resp.keysDeleted = 0)) := by
  constructor
  · intro hnot
    simp [clearCachePattern, hnot]
  · intro hmem
    cases delFails with
    | true =>
      refine ⟨⟨"success", pattern, 0⟩, store, ?_, rfl, rfl, by simp, fun _ => rfl⟩
      simp [clearCachePattern, hmem, deletePattern]
    | false =>
      refine ⟨⟨"success", pattern,
          (store.filter (fun e => keyMatches pattern e.1)).length⟩,
        store.filter (fun e => !keyMatches pattern e.1), ?_, rfl, rfl, ?_, ?_⟩
      · simp [clearCachePattern, hmem, deletePattern]
      · simpa using length_filter_add_length_filter_not store
          (fun e => keyMatches pattern e.1)
      · intro hno
        simp [List.filter_eq_nil_iff.2 (fun e he => by simpa using hno e he)]

/-- C9 witness: a non-allow-listed pattern is rejected with 400, and an
allow-listed pattern on an empty store succeeds deleting 0 keys. -/
theorem clear_cache_pattern_allowlist_witness :
    clearCachePattern true false ([] : List (String × Nat)) "foo:*"
      = .error 400 ∧
    ∃ resp store',
      clearCachePattern true false ([] : List (String × Nat)) "lineage:*"
        = .ok (resp, store') ∧
      resp.status = "success" ∧ resp.pattern = "lineage:*" ∧
      resp.keysDeleted + store'.length = 0 ∧
      ((∀ e ∈ ([] : List (String × Nat)), ¬ keyMatches "lineage:*" e.1) →
        resp.keysDeleted = 0) :=
  ⟨(clear_cache_pattern_allowlist [] "foo:*" false).1 (by decide),
   (clear_cache_pattern_allowlist [] "lineage:*" false).2 (by decide)⟩

/-! ## Severity monotonicity -/

/-- The evaluation state after check 1 (starting from
`([], "info")`). -/
def sevStage1 (m : RcaMetadata) : List String × String := check1 m ([], "info")

/-- The state after checks 1–2. -/
def sevStage2 (m : RcaMetadata) : List String × String := check2 m (sevStage1 m)

/-- The state after checks 1–3. -/
def sevStage3 (m : RcaMetadata) : List String × String := check3 m (sevStage2 m)

/-- The state after all four checks. -/
def sevStage4 (m : RcaMetadata) (fs : List JobFailure) :
    List String × String := check4 fs (sevStage3 m)

/-- A severity update is a step if it keeps the severity, forces
`"critical"`, or raises `"info"` to `"warning"`. -/
def SevStep (f : List String × String → List String × String) : Prop :=
  ∀ st, (f st).2 = st.2 ∨ (f st).2 = "critical" ∨
    ((f st).2 = "warning" ∧ st.2 = "info")

theorem check1_sevStep (m : RcaMetadata) : SevStep (check1 m) := by
  intro st
  unfold check1
  split_ifs with h1 h2 h3 <;> simp_all

theorem check2_sevStep (m : RcaMetadata) : SevStep (check2 m) := by
  intro st
  unfold check2
  split_ifs with h1 h2 <;> simp_all

theorem check3_sevStep (m : RcaMetadata) : SevStep (check3 m) := by
  intro st
  unfold check3
  split_ifs with h1 <;> simp_all

theorem check4_sevStep (fs : List JobFailure) : SevStep (check4 fs) := by
  intro st
  unfold check4
  split_ifs with h1 <;> simp_all

theorem sevStep_rank {f : List String × String → List String × String}
    (hf : SevStep f) (st : List String × String) :
    severityOrder (f st).2 ≤ severityOrder st.2 := by
  rcases hf st with h | h | ⟨h, h'⟩
  · rw [h]
  · simp [h, severityOrder]
  · simp [h, h', severityOrder]

theorem sevStep_critical {f : List String × String → List String × String}
    (hf : SevStep f) (st : List String × String) (h : st.2 = "critical") :
    (f st).2 = "critical" := by
  rcases hf st with h1 | h1 | ⟨h1, h2⟩
  · rw [h1, h]
  · exact h1
  · rw [h] at h2
    exact absurd h2 (by decide)

theorem sevStep_ne_info {f : List String × String → List String × String}
    (hf : SevStep f) (st : List String × String) (h : st.2 ≠ "info") :
    (f st).2 ≠ "info" := by
  rcases hf st with h1 | h1 | ⟨h1, h2⟩
  · rw [h1]; exact h
  · rw [h1]; decide
  · exact absurd h2 h

/-- C2: across the four health checks of
`analyze_upstream_dependencies`, applied in order from the initial
`"info"`, the severity rank (`critical` = 0 < `warning` = 1 <
`info` = 2) never increases; once a stage reaches `"critical"` every
later stage stays `"critical"`, once a stage reaches `"warning"` no
later stage is `"info"`, and the analyzer's per-ancestor severity is
exactly the stage-4 value. -/
theorem severity_monotone (m : RcaMetadata) (fs : List JobFailure) :
    severityOrder (sevStage1 m).2 ≤ severityOrder "info" ∧
    severityOrder (sevStage2 m).2 ≤ severityOrder (sevStage1 m).2 ∧
    severityOrder (sevStage3 m).2 ≤ severityOrder (sevStage2 m).2 ∧
    severityOrder (sevStage4 m fs).2 ≤ severityOrder (sevStage3 m).2 ∧
    ((sevStage1 m).2 = "critical" → (sevStage2 m).2 = "critical" ∧
      (sevStage3 m).2 = "critical" ∧ (sevStage4 m fs).2 = "critical") ∧
    ((sevStage2 m).2 = "critical" → (sevStage3 m).2 = "critical" ∧
      (sevStage4 m fs).2 = "critical") ∧
    ((sevStage3 m).2 = "critical" → (sevStage4 m fs).2 = "critical") ∧
    ((sevStage1 m).2 = "warning" → (sevStage2 m).2 ≠ "info" ∧
      (sevStage3 m).2 ≠ "info" ∧ (sevStage4 m fs).2 ≠ "info") ∧
    ((sevStage2 m).2 = "warning" → (sevStage3 m).2 ≠ "info" ∧
      (sevStage4 m fs).2 ≠ "info") ∧
    ((sevStage3 m).2 = "warning" → (sevStage4 m fs).2 ≠ "info") ∧
    (evalAncestor m fs).2 = (sevStage4 m fs).2 := by
  have s1 := check1_sevStep m
  have s2 := check2_sevStep m
  have s3 := check3_sevStep m
  have s4 := check4_sevStep fs
  have r1 : severityOrder (sevStage1 m).2 ≤ severityOrder "info" := by
    simpa [sevStage1] using sevStep_rank s1 ([], "info")
  have r2 := sevStep_rank s2 (sevStage1 m)
  have r3 := sevStep_rank s3 (sevStage2 m)
  have r4 := sevStep_rank s4 (sevStage3 m)
  have c2 : (sevStage1 m).2 = "critical" → (sevStage2 m).2 = "critical" :=
    fun h => sevStep_critical s2 _ h
  have c3 : (sevStage2 m).2 = "critical" → (sevStage3 m).2 = "critical" :=
    fun h => sevStep_critical s3 _ h
  have c4 : (sevStage3 m).2 = "critical" → (sevStage4 m fs).2 = "critical" :=
    fun h => sevStep_critical s4 _ h
  have w2 : (sevStage1 m).2 ≠ "info" → (sevStage2 m).2 ≠ "info" :=
    fun h => sevStep_ne_info s2 _ h
  have w3 : (sevStage2 m).2 ≠ "info" → (sevStage3 m).2 ≠ "info" :=
    fun h => sevStep_ne_info s3 _ h
  have w4 : (sevStage3 m).2 ≠ "info" → (sevStage4 m fs).2 ≠ "info" :=
    fun h => sevStep_ne_info s4 _ h
  refine ⟨r1, r2, r3, r4,
    fun h => ⟨c2 h, c3 (c2 h), c4 (c3 (c2 h))⟩,
    fun h => ⟨c3 h, c4 (c3 h)⟩,
    fun h => c4 h,
    fun h => ?_,
    fun h => ?_,
    fun h => w4 (h ▸ (by decide)),
    rfl⟩
  · have h1 : (sevStage1 m).2 ≠ "info" := h ▸ (by decide)
    exact ⟨w2 h1, w3 (w2 h1), w4 (w3 (w2 h1))⟩
  · have h1 : (sevStage2 m).2 ≠ "info" := h ▸ (by decide)
    exact ⟨w3 h1, w4 (w3 h1)⟩

/-- Metadata of a table last modified 200 hours ago with rows present
(used to exercise the critical path of the severity chain). -/
def staleSampleMetadata : RcaMetadata :=
  { projectId := "proj", datasetId := "ds", tableId := "raw"
    numRows := 5, numBytes := 10, modifiedHoursAgo := 200
    freshness := rcaFreshness 200, type := "table" }

/-- C2 witness: on stale metadata, stage 1 is `"critical"` and the
monotonicity theorem carries it through to stage 4. -/
theorem severity_monotone_witness :
    (sevStage1 staleSampleMetadata).2 = "critical" ∧
    (sevStage4 staleSampleMetadata []).2 = "critical" :=
  ⟨by decide,
    ((severity_monotone staleSampleMetadata []).2.2.2.2.1 (by decide)).2.2⟩

/-! ## The reference scenario -/

/-- The lineage graph for root `proj.ds.orders` whose upstream query
returns the single write source `proj.ds.raw_orders` (direction and
depth as the root-cause endpoint requests them: `upstream`, 5). -/
def scenarioLineage : LineageResult :=
  getTableLineage "proj" "ds" "orders" "upstream" 5
    (.ok [⟨"proj", "ds", "raw_orders"⟩]) (.ok [])

/-- The warehouse for the scenario: `raw_orders` was last modified 48
hours (2 days) ago, holds 1000 rows, and has no recent job
failures. -/
def scenarioEnv : RcaEnv :=
  { tableRef := fun _ _ tbl =>
      if tbl = "raw_orders" then some ⟨48, 1000, 5000, "table"⟩ else none
    failures := fun _ _ _ => [] }

/-- The root-cause analysis of the scenario. -/
def scenarioAnalysis : AnalysisResult :=
  analyzeUpstreamDependencies "proj" "ds" "orders" scenarioLineage scenarioEnv

/-- C5 counterexample: in the claimed scenario (single upstream source
modified 2 days = 48 h ago, 1000 rows, no failures) the analyzer does
flag `raw_orders`: 48 h ≥ 24 h makes its freshness `"recent"`, not
`"fresh"`, producing one outdated-data issue at severity `"warning"`
and the check-the-flagged-tables recommendation instead of the
no-obvious-issues one. -/
theorem scenario_source_is_flagged_not_fresh :
    scenarioAnalysis.suspiciousNodes ≠ [] ∧
    (scenarioAnalysis.suspiciousNodes.map fun s => s.freshness) = ["recent"] ∧
    (scenarioAnalysis.suspiciousNodes.map fun s => s.freshness) ≠ ["fresh"] ∧
    scenarioAnalysis.recommendation
      ≠ "No obvious upstream issues detected. The problem may be in the transformation logic or external factors." := by
  refine ⟨by decide, by decide, by decide, by decide⟩

/-- C5 (amended): the scenario's lineage has exactly the two nodes
`orders` (root) and `raw_orders` and the one edge
`raw_orders → orders`; the root-cause analysis visits both nodes and
returns `raw_orders` flagged with freshness `"recent"`, severity
`"warning"`, the single outdated-data issue, no job failures, and the
cascading-sources recommendation. -/
theorem scenario_lineage_and_analysis :
    scenarioLineage.nodes.length = 2 ∧
    (scenarioLineage.nodes.map fun n => n.id)
      = ["proj.ds.orders", "proj.ds.raw_orders"] ∧
    (scenarioLineage.nodes.map fun n => n.level) = [0, 1] ∧
    scenarioLineage.edges
      = [{ source := "proj.ds.raw_orders", target := "proj.ds.orders"
           type := "dependency" }] ∧
    scenarioLineage.rootNode = "proj.ds.orders" ∧
    scenarioAnalysis.analyzedNodes = 2 ∧
    (scenarioAnalysis.suspiciousNodes.map fun s =>
        (s.node.id, s.severity, s.freshness, s.numRows, s.issues))
      = [("proj.ds.raw_orders", "warning", "recent", 1000,
          ["Data may be outdated (>24 hours old)"])] ∧
    (scenarioAnalysis.suspiciousNodes.map fun s => s.jobFailures) = [[]] ∧
    scenarioAnalysis.recommendation
      = "Check the flagged upstream tables. Issues may be cascading from multiple sources." := by
  refine ⟨by decide, by decide, by decide, by decide, by decide, by decide,
    by decide, by decide, by decide⟩

/-! ## One-level expansion -/

/-- C3: whatever direction and depth are requested, every node of the
returned graph other than the root is at level 1, and every edge is
incident to the root identity. -/
theorem lineage_single_level (p d t direction : String) (depth : Nat)
    (upResult downResult : Except String (List TableTriple)) :
    (∀ n ∈ (getTableLineage p d t direction depth upResult downResult).nodes,
      n.id ≠ tableKey p d t → n.level = 1) ∧
    (∀ e ∈ (getTableLineage p d t direction depth upResult downResult).edges,
      e.source = tableKey p d t ∨ e.target = tableKey p d t) := by
  constructor
  · intro n hn hne
    have hsrc := mem_of_mem_pyDictValues hn
    simp only [getTableLineage, List.mem_append, List.mem_singleton] at hsrc
    rcases hsrc with (hroot | hup) | hdown
    · exact absurd (by rw [hroot]; rfl) hne
    · split at hup
      · cases upResult with
        | error e => simp [getUpstreamDependencies] at hup
        | ok rows =>
          simp only [getUpstreamDependencies, List.mem_map] at hup
          obtain ⟨r, -, hr⟩ := hup
          rw [← hr]
          rfl
      · simp at hup
    · split at hdown
      · cases downResult with
        | error e => simp [getDownstreamDependencies] at hdown
        | ok rows =>
          simp only [getDownstreamDependencies, List.mem_map] at hdown
          obtain ⟨r, -, hr⟩ := hdown
          rw [← hr]
          rfl
      · simp at hdown
  · intro e he
    have hsrc := mem_of_mem_pyDictValues he
    simp only [getTableLineage, List.mem_append] at hsrc
    rcases hsrc with hup | hdown
    · split at hup
      · cases upResult with
        | error er => simp [getUpstreamDependencies] at hup
        | ok rows =>
          simp only [getUpstreamDependencies, List.mem_map] at hup
          obtain ⟨r, -, hr⟩ := hup
          right
          rw [← hr]
      · simp at hup
    · split at hdown
      · cases downResult with
        | error er => simp [getDownstreamDependencies] at hdown
        | ok rows =>
          simp only [getDownstreamDependencies, List.mem_map] at hdown
          obtain ⟨r, -, hr⟩ := hdown
          left
          rw [← hr]
      · simp at hdown

/-- C3 witness: the one-level property evaluated on a graph with one
upstream and one downstream discovery. -/
theorem lineage_single_level_witness :
    ∀ n ∈ (getTableLineage "p" "d" "t" "both" 4
        (.ok [⟨"a", "b", "c"⟩]) (.ok [⟨"x", "y", "z"⟩])).nodes,
      n.id ≠ tableKey "p" "d" "t" → n.level = 1 :=
  (lineage_single_level "p" "d" "t" "both" 4
    (.ok [⟨"a", "b", "c"⟩]) (.ok [⟨"x", "y", "z"⟩])).1

/-! ## Presence of the root node -/

theorem lastWith_isSome_of_mem {α : Type} {key : α → String} {l : List α}
    {k : String} {a : α} (ha : a ∈ l) (hk : key a = k) :
    ∃ x, lastWith key l k = some x ∧ x ∈ l ∧ key x = k := by
  unfold lastWith
  have hmem : a ∈ l.filter (fun b => decide (key b = k)) :=
    List.mem_filter.2 ⟨ha, by simp [hk]⟩
  rcases hfl : l.filter (fun b => decide (key b = k)) with _ | ⟨b, bs⟩
  · rw [hfl] at hmem
    simp at hmem
  · obtain ⟨x, hx⟩ := getLast?_cons_isSome b bs
    have hxmem : x ∈ l.filter (fun b => decide (key b = k)) := by
      rw [hfl]
      exact List.mem_of_mem_getLast? (by simp [hx])
    exact ⟨x, hx, List.mem_of_mem_filter hxmem,
      by simpa using List.of_mem_filter hxmem⟩

theorem mem_pyDictValues_of_lastWith {α : Type} {key : α → String}
    {l : List α} {k : String} {x : α} (h : lastWith key l k = some x) :
    x ∈ pyDictValues key l := by
  have hl : lookupA (pyDict key l) k = some x := by
    rw [lookupA_pyDict, h]
  exact List.mem_map_of_mem Prod.snd (mem_of_lookupA hl)

/-- C10 counterexample: when the upstream query rediscovers the root
itself (a self-referencing write job), the last-write-wins dedup dict
replaces the level-0 root entry with the level-1 rediscovery: the
returned graph has `rootNode = "p.d.t"` but its single node carries
level 1, not 0. -/
theorem lineage_root_overwritten_on_rediscovery :
    (getTableLineage "p" "d" "t" "upstream" 3
        (.ok [⟨"p", "d", "t"⟩]) (.ok [])).rootNode = "p.d.t" ∧
    (getTableLineage "p" "d" "t" "upstream" 3
        (.ok [⟨"p", "d", "t"⟩]) (.ok [])).nodes.length = 1 ∧
    (∀ n ∈ (getTableLineage "p" "d" "t" "upstream" 3
        (.ok [⟨"p", "d", "t"⟩]) (.ok [])).nodes, n.id = "p.d.t" ∧ n.level = 1)
    := by
  refine ⟨by decide, by decide, by decide⟩

/-- C10 (amended): every lineage response carries
`rootNode = "{project}.{dataset}.{table}"` and a node with that id —
at level 0 whenever neither sub-query rediscovers the root identity
itself (a rediscovery replaces the entry with its level-1 copy); the
graph construction never errors, and when both sub-queries fail or
return nothing the response is exactly the level-0 root node and no
edges. -/
theorem lineage_root_always_present (p d t direction : String)
    (depth : Nat) (upResult downResult : Except String (List TableTriple)) :
    (getTableLineage p d t direction depth upResult downResult).rootNode
      = tableKey p d t ∧
    (∃ n ∈ (getTableLineage p d t direction depth upResult downResult).nodes,
      n.id = tableKey p d t) ∧
    (getTableLineage p d t direction depth upResult downResult).nodes ≠ [] ∧
    getTableLineageResponse p d t direction depth upResult downResult
      = .ok (getTableLineage p d t direction depth upResult downResult) ∧
    ((upResult = .ok [] ∨ ∃ e, upResult = .error e) →
     (downResult = .ok [] ∨ ∃ e, downResult = .error e) →
      (getTableLineage p d t direction depth upResult downResult).nodes
          = [rootNodeOf p d t] ∧
      (getTableLineage p d t direction depth upResult downResult).edges = []) ∧
    ((∀ rows r, upResult = .ok rows → r ∈ rows →
        tableKey r.project r.dataset r.table ≠ tableKey p d t) →
     (∀ rows r, downResult = .ok rows → r ∈ rows →
        tableKey r.project r.dataset r.table ≠ tableKey p d t) →
      rootNodeOf p d t
        ∈ (getTableLineage p d t direction depth upResult downResult).nodes) := by
  refine ⟨rfl, ?_, ?_, rfl, ?_, ?_⟩
  · have hroot : rootNodeOf p d t
        ∈ ([rootNodeOf p d t]
          ++ (if direction = "upstream" ∨ direction = "both" then
                (getUpstreamDependencies p d t depth upResult).1 else [])
          ++ (if direction = "downstream" ∨ direction = "both" then
                (getDownstreamDependencies p d t depth downResult).1 else [])) := by
      simp
    obtain ⟨x, hx, -, hxk⟩ := lastWith_isSome_of_mem hroot
      (rfl : (rootNodeOf p d t).id = tableKey p d t)
    exact ⟨x, mem_pyDictValues_of_lastWith hx, hxk⟩
  · have h2 : ∃ n ∈ (getTableLineage p d t direction depth
        upResult downResult).nodes, n.id = tableKey p d t := by
      have hroot : rootNodeOf p d t
          ∈ ([rootNodeOf p d t]
            ++ (if direction = "upstream" ∨ direction = "both" then
                  (getUpstreamDependencies p d t depth upResult).1 else [])
            ++ (if direction = "downstream" ∨ direction = "both" then
                  (getDownstreamDependencies p d t depth downResult).1 else [])) := by
        simp
      obtain ⟨x, hx, -, hxk⟩ := lastWith_isSome_of_mem hroot
        (rfl : (rootNodeOf p d t).id = tableKey p d t)
      exact ⟨x, mem_pyDictValues_of_lastWith hx, hxk⟩
    obtain ⟨n, hn, -⟩ := h2
    exact List.ne_nil_of_mem hn
  · intro hu hd
    have hu' : (getUpstreamDependencies p d t depth upResult) = ([], []) := by
      rcases hu with h | ⟨e, h⟩ <;> subst h <;> rfl
    have hd' : (getDownstreamDependencies p d t depth downResult) = ([], []) := by
      rcases hd with h | ⟨e, h⟩ <;> subst h <;> rfl
    constructor <;>
      simp [getTableLineage, hu', hd', pyDictValues, pyDict, insertPy]
  · intro hu hd
    have hfu : ∀ n ∈ (if direction = "upstream" ∨ direction = "both" then
        (getUpstreamDependencies p d t depth upResult).1 else []),
        ¬ n.id = tableKey p d t := by
      intro n hn
      split at hn
      · cases hur : upResult with
        | error e => rw [hur] at hn; simp [getUpstreamDependencies] at hn
        | ok rows =>
          rw [hur] at hn
          simp only [getUpstreamDependencies, List.mem_map] at hn
          obtain ⟨r, hr, hrn⟩ := hn
          rw [← hrn]
          exact hu rows r hur (List.mem_of_mem_filter hr)
      · simp at hn
    have hfd : ∀ n ∈ (if direction = "downstream" ∨ direction = "both" then
        (getDownstreamDependencies p d t depth downResult).1 else []),
        ¬ n.id = tableKey p d t := by
      intro n hn
      split at hn
      · cases hdr : downResult with
        | error e => rw [hdr] at hn; simp [getDownstreamDependencies] at hn
        | ok rows =>
          rw [hdr] at hn
          simp only [getDownstreamDependencies, List.mem_map] at hn
          obtain ⟨r, hr, hrn⟩ := hn
          rw [← hrn]
          exact hd rows r hdr (List.mem_of_mem_filter hr)
      · simp at hn
    have hUnone : lastWith (fun n : LineageNode => n.id)
        (if direction = "upstream" ∨ direction = "both" then
          (getUpstreamDependencies p d t depth upResult).1 else [])
        (tableKey p d t) = none := by
      unfold lastWith
      rw [List.filter_eq_nil_iff.2 (fun n hn => by simpa using hfu n hn)]
      rfl
    have hDnone : lastWith (fun n : LineageNode => n.id)
        (if direction = "downstream" ∨ direction = "both" then
          (getDownstreamDependencies p d t depth downResult).1 else [])
        (tableKey p d t) = none := by
      unfold lastWith
      rw [List.filter_eq_nil_iff.2 (fun n hn => by simpa using hfd n hn)]
      rfl
    have hlast : lastWith (fun n : LineageNode => n.id)
        ([rootNodeOf p d t]
          ++ (if direction = "upstream" ∨ direction = "both" then
                (getUpstreamDependencies p d t depth upResult).1 else [])
          ++ (if direction = "downstream" ∨ direction = "both" then
                (getDownstreamDependencies p d t depth downResult).1 else []))
        (tableKey p d t) = some (rootNodeOf p d t) := by
      rw [lastWith_append, hDnone, lastWith_append, hUnone]
      simp [lastWith, rootNodeOf]
    exact mem_pyDictValues_of_lastWith hlast

/-- C10 witness: with an empty upstream result and a failing
downstream query, the response is exactly the level-0 root node and no
edges. -/
theorem lineage_root_always_present_witness :
    (getTableLineage "p" "d" "t" "both" 3 (.ok []) (.error "boom")).nodes
      = [rootNodeOf "p" "d" "t"] ∧
    (getTableLineage "p" "d" "t" "both" 3 (.ok []) (.error "boom")).edges
      = [] :=
  (lineage_root_always_present "p" "d" "t" "both" 3
    (.ok []) (.error "boom")).2.2.2.2.1 (Or.inl rfl) (Or.inr ⟨"boom", rfl⟩)

/-! ## Dedup invariants -/

theorem fst_eq_key_pyFold {α : Type} (key : α → String) (l : List α)
    (d : List (String × α)) (hd : ∀ q ∈ d, q.1 = key q.2) :
    ∀ q ∈ l.foldl (fun d a => insertPy (key a) a d) d, q.1 = key q.2 := by
  induction l generalizing d with
  | nil => simpa using hd
  | cons a t ih =>
    intro q hq
    refine ih _ ?_ q (by simpa using hq)
    intro q' hq'
    rcases mem_insertPy hq' with h | h
    · rw [h]
    · exact hd q' h

theorem map_key_pyDictValues {α : Type} (key : α → String) (l : List α) :
    (pyDictValues key l).map key = (pyDict key l).map Prod.fst := by
  unfold pyDictValues
  rw [List.map_map]
  exact List.map_congr_left fun q hq =>
    (fst_eq_key_pyFold key l [] (by simp) q hq).symm

theorem nodup_key_pyDictValues {α : Type} (key : α → String) (l : List α) :
    ((pyDictValues key l).map key).Nodup := by
  rw [map_key_pyDictValues]
  exact nodupKeys_pyDict key l

/-- The edge-dedup key factors through the `(source, target)` pair. -/
theorem edgeKey_eq_pair (e : LineageEdge) :
    edgeKey e = e.source ++ "-" ++ e.target := rfl

/-- C4: the lineage graph deduplicates: node ids are pairwise distinct,
`(source, target)` edge pairs are pairwise distinct, and — when the
discovered row components are dot-free (as all legal BigQuery
identifiers are) — reordering the rows either discovery query returns
permutes nothing but the order: the node and edge sets are the same. -/
theorem lineage_dedup_order_independent (p d t direction : String)
    (depth : Nat) (up up' down down' : List TableTriple)
    (hu : up.Perm up') (hd : down.Perm down')
    (hdf : ∀ r ∈ up ++ down, noDot r.project ∧ noDot r.dataset) :
    ((getTableLineage p d t direction depth (.ok up) (.ok down)).nodes.map
      fun n => n.id).Nodup ∧
    ((getTableLineage p d t direction depth (.ok up) (.ok down)).edges.map
      fun e => (e.source, e.target)).Nodup ∧
    (getTableLineage p d t direction depth (.ok up) (.ok down)).nodes.Perm
      (getTableLineage p d t direction depth (.ok up') (.ok down')).nodes ∧
    (getTableLineage p d t direction depth (.ok up) (.ok down)).edges.Perm
      (getTableLineage p d t direction depth (.ok up') (.ok down')).edges := by
  refine ⟨nodup_key_pyDictValues _ _, ?_, ?_, ?_⟩
  · have hkey := nodup_key_pyDictValues edgeKey
      ((if direction = "upstream" ∨ direction = "both" then
          (getUpstreamDependencies p d t depth (.ok up)).2 else [])
        ++ (if direction = "downstream" ∨ direction = "both" then
          (getDownstreamDependencies p d t depth (.ok down)).2 else []))
    have hfac : ((getTableLineage p d t direction depth
          (.ok up) (.ok down)).edges.map fun e => (e.source, e.target)).map
        (fun q : String × String => q.1 ++ "-" ++ q.2)
        = (getTableLineage p d t direction depth
            (.ok up) (.ok down)).edges.map edgeKey := by
      rw [List.map_map]
      rfl
    refine List.Nodup.of_map (fun q : String × String => q.1 ++ "-" ++ q.2) ?_
    rw [hfac]
    exact hkey
  · -- node sets are order-independent
    apply pyDictValues_perm
    intro k
    have hUperm : (if direction = "upstream" ∨ direction = "both" then
          (getUpstreamDependencies p d t depth (.ok up)).1 else []).Perm
        (if direction = "upstream" ∨ direction = "both" then
          (getUpstreamDependencies p d t depth (.ok up')).1 else []) := by
      split
      · exact (hu.filter _).map _
      · exact List.Perm.refl _
    have hDperm : (if direction = "downstream" ∨ direction = "both" then
          (getDownstreamDependencies p d t depth (.ok down)).1 else []).Perm
        (if direction = "downstream" ∨ direction = "both" then
          (getDownstreamDependencies p d t depth (.ok down')).1 else []) := by
      split
      · exact (hd.filter _).map _
      · exact List.Perm.refl _
    have hUdet : ∀ a ∈ (if direction = "upstream" ∨ direction = "both" then
          (getUpstreamDependencies p d t depth (.ok up)).1 else []),
        ∀ b ∈ (if direction = "upstream" ∨ direction = "both" then
          (getUpstreamDependencies p d t depth (.ok up)).1 else []),
        a.id = b.id → a = b := by
      intro a ha b hb hab
      split at ha
      · rename_i hc
        rw [if_pos hc] at hb
        simp only [getUpstreamDependencies, List.mem_map] at ha hb
        obtain ⟨r1, hr1, ha1⟩ := ha
        obtain ⟨r2, hr2, hb1⟩ := hb
        have hid : tableKey r1.project r1.dataset r1.table
            = tableKey r2.project r2.dataset r2.table := by
          rw [← ha1, ← hb1] at hab
          exact hab
        have h1 := hdf r1 (List.mem_append.2 (Or.inl (List.mem_of_mem_filter hr1)))
        have h2 := hdf r2 (List.mem_append.2 (Or.inl (List.mem_of_mem_filter hr2)))
        obtain ⟨e1, e2, e3⟩ := tableKey_inj h1.1 h1.2 h2.1 h2.2 hid
        have : r1 = r2 := by
          cases r1; cases r2; simp_all
        rw [← ha1, ← hb1, this]
      · simp at ha
    have hDdet : ∀ a ∈ (if direction = "downstream" ∨ direction = "both" then
          (getDownstreamDependencies p d t depth (.ok down)).1 else []),
        ∀ b ∈ (if direction = "downstream" ∨ direction = "both" then
          (getDownstreamDependencies p d t depth (.ok down)).1 else []),
        a.id = b.id → a = b := by
      intro a ha b hb hab
      split at ha
      · rename_i hc
        rw [if_pos hc] at hb
        simp only [getDownstreamDependencies, List.mem_map] at ha hb
        obtain ⟨r1, hr1, ha1⟩ := ha
        obtain ⟨r2, hr2, hb1⟩ := hb
        have hid : tableKey r1.project r1.dataset r1.table
            = tableKey r2.project r2.dataset r2.table := by
          rw [← ha1, ← hb1] at hab
          exact hab
        have h1 := hdf r1 (List.mem_append.2 (Or.inr (List.mem_of_mem_filter hr1)))
        have h2 := hdf r2 (List.mem_append.2 (Or.inr (List.mem_of_mem_filter hr2)))
        obtain ⟨e1, e2, e3⟩ := tableKey_inj h1.1 h1.2 h2.1 h2.2 hid
        have : r1 = r2 := by
          cases r1; cases r2; simp_all
        rw [← ha1, ← hb1, this]
      · simp at ha
    have hUeq := lastWith_congr_of_perm (fun n : LineageNode => n.id) k
      hUperm hUdet
    have hDeq := lastWith_congr_of_perm (fun n : LineageNode => n.id) k
      hDperm hDdet
    rw [lastWith_append, lastWith_append, lastWith_append, lastWith_append,
      hUeq, hDeq]
  · -- edge sets are order-independent
    apply pyDictValues_perm
    intro k
    have hUperm : (if direction = "upstream" ∨ direction = "both" then
          (getUpstreamDependencies p d t depth (.ok up)).2 else []).Perm
        (if direction = "upstream" ∨ direction = "both" then
          (getUpstreamDependencies p d t depth (.ok up')).2 else []) := by
      split
      · exact (hu.filter _).map _
      · exact List.Perm.refl _
    have hDperm : (if direction = "downstream" ∨ direction = "both" then
          (getDownstreamDependencies p d t depth (.ok down)).2 else []).Perm
        (if direction = "downstream" ∨ direction = "both" then
          (getDownstreamDependencies p d t depth (.ok down')).2 else []) := by
      split
      · exact (hd.filter _).map _
      · exact List.Perm.refl _
    have hUdet : ∀ a ∈ (if direction = "upstream" ∨ direction = "both" then
          (getUpstreamDependencies p d t depth (.ok up)).2 else []),
        ∀ b ∈ (if direction = "upstream" ∨ direction = "both" then
          (getUpstreamDependencies p d t depth (.ok up)).2 else []),
        edgeKey a = edgeKey b → a = b := by
      intro a ha b hb hab
      split at ha
      · rename_i hc
        rw [if_pos hc] at hb
        simp only [getUpstreamDependencies, List.mem_map] at ha hb
        obtain ⟨r1, hr1, ha1⟩ := ha
        obtain ⟨r2, hr2, hb1⟩ := hb
        rw [← ha1, ← hb1] at hab ⊢
        have hsrc : tableKey r1.project r1.dataset r1.table
            = tableKey r2.project r2.dataset r2.table := by
          have := string_append_cancel_right
            (string_append_cancel_right (a := _ ++ "-") (b := _ ++ "-") hab)
          exact this
        simp_all [edgeKey]
      · simp at ha
    have hDdet : ∀ a ∈ (if direction = "downstream" ∨ direction = "both" then
          (getDownstreamDependencies p d t depth (.ok down)).2 else []),
        ∀ b ∈ (if direction = "downstream" ∨ direction = "both" then
          (getDownstreamDependencies p d t depth (.ok down)).2 else []),
        edgeKey a = edgeKey b → a = b := by
      intro a ha b hb hab
      split at ha
      · rename_i hc
        rw [if_pos hc] at hb
        simp only [getDownstreamDependencies, List.mem_map] at ha hb
        obtain ⟨r1, hr1, ha1⟩ := ha
        obtain ⟨r2, hr2, hb1⟩ := hb
        rw [← ha1, ← hb1] at hab ⊢
        have htgt : tableKey r1.project r1.dataset r1.table
            = tableKey r2.project r2.dataset r2.table :=
          string_append_cancel_left hab
        simp_all [edgeKey]
      · simp at ha
    have hUeq := lastWith_congr_of_perm edgeKey k hUperm hUdet
    have hDeq := lastWith_congr_of_perm edgeKey k hDperm hDdet
    rw [lastWith_append, lastWith_append, hUeq, hDeq]

/-- C4 witness: the dedup/order-independence theorem at a concrete
graph whose upstream rows are given in two different orders. -/
theorem lineage_dedup_order_independent_witness :
    (getTableLineage "p" "d" "t" "both" 3
        (.ok [⟨"a", "b", "c"⟩, ⟨"x", "y", "z"⟩]) (.ok [⟨"q", "r", "s"⟩])).nodes.Perm
      (getTableLineage "p" "d" "t" "both" 3
        (.ok [⟨"x", "y", "z"⟩, ⟨"a", "b", "c"⟩]) (.ok [⟨"q", "r", "s"⟩])).nodes :=
  (lineage_dedup_order_independent "p" "d" "t" "both" 3
    [⟨"a", "b", "c"⟩, ⟨"x", "y", "z"⟩] [⟨"x", "y", "z"⟩, ⟨"a", "b", "c"⟩]
    [⟨"q", "r", "s"⟩] [⟨"q", "r", "s"⟩]
    (by decide) (by decide) (by decide)).2.2.1

end DataPlatform
